import Mathlib

/-!
A verification development for the API report generator
(`ApiReportGenerator.ts`): a shallow embedding of the span-based
tree-rewrite engine and its report orchestration, together with proofs of
the behavioural properties stated in the specification.

Strings are embedded as `List Char`; TypeScript numeric enums are embedded
as `Nat`; code that can throw is embedded in `Except (List Char)` carrying
the error message.
-/

/-- Modelled from the spec: the ordered visibility tags of the repository's
release-tag enum (`ReleaseTag` from the api-extractor-model package, which is
not under src/).  The tags are ordered, `None` meaning "unspecified". -/
inductive ReleaseTag where
  | None
  | Internal
  | Alpha
  | Beta
  | Public
deriving DecidableEq, Repr

/-- Modelled from the spec: the numeric value of each release tag, giving the
ordering untrimmed/internal < alpha < beta < public used by the inclusion
rule `effective_tag >= threshold`. -/
def releaseTagToNat : ReleaseTag → Nat
  | .None => 0
  | .Internal => 1
  | .Alpha => 2
  | .Beta => 3
  | .Public => 4

/-- Modelled from the spec: `ts.ModifierFlags.Private` from the external
TypeScript compiler API (value `8`); a declaration carries the private
modifier when this bit is set in its `modifierFlags`. -/
def tsModifierFlagsPrivate : Nat := 8

/-- The numeric values of the `ApiReportReleaseLevel` enum from the source:
`Untrimmed = 0`, `Alpha = 1`, `Beta = 2`, `Public = 3`.  The enum is numeric
in TypeScript, so a threshold value is embedded as a plain `Nat`, which also
represents unrecognized out-of-range values. -/
def ApiReportReleaseLevel.Untrimmed : Nat := 0

/-- Numeric value of `ApiReportReleaseLevel.Alpha`. -/
def ApiReportReleaseLevel.Alpha : Nat := 1

/-- Numeric value of `ApiReportReleaseLevel.Beta`. -/
def ApiReportReleaseLevel.Beta : Nat := 2

/-- Numeric value of `ApiReportReleaseLevel.Public`. -/
def ApiReportReleaseLevel.Public : Nat := 3

/-- Inputs of `_shouldIncludeInReport` that come from its collaborators: the
declaration's modifier flags and the effective release tag stored in the
declaration's `ApiItemMetadata` (fetched through the collector). -/
structure InclusionInput where
  modifierFlags : Nat
  effectiveReleaseTag : ReleaseTag
deriving Repr

/-- Embedding of `ApiReportGenerator._shouldIncludeInReport`: private
declarations are rejected first; an unspecified tag is treated as `@public`;
then the threshold switch runs, whose default branch throws
`Unrecognized release level: ...`. -/
def _shouldIncludeInReport (d : InclusionInput) (releaseLevel : Nat) :
    Except (List Char) Bool :=
  if Nat.land d.modifierFlags tsModifierFlagsPrivate ≠ 0 then
    .ok false
  else
    let releaseTag : ReleaseTag :=
      if d.effectiveReleaseTag = ReleaseTag.None then ReleaseTag.Public
      else d.effectiveReleaseTag
    if releaseLevel = ApiReportReleaseLevel.Untrimmed then
      .ok true
    else if releaseLevel = ApiReportReleaseLevel.Alpha then
      .ok (decide (releaseTagToNat releaseTag ≥ releaseTagToNat ReleaseTag.Alpha))
    else if releaseLevel = ApiReportReleaseLevel.Beta then
      .ok (decide (releaseTagToNat releaseTag ≥ releaseTagToNat ReleaseTag.Beta))
    else if releaseLevel = ApiReportReleaseLevel.Public then
      .ok (decide (releaseTag = ReleaseTag.Public))
    else
      .error (("Unrecognized release level: ".toList) ++ (Nat.repr releaseLevel).toList)

/-- The effective tag used by the switch: an unspecified (`None`) tag is
treated the same as `@public`. -/
def effectiveTagOrPublic (d : InclusionInput) : ReleaseTag :=
  if d.effectiveReleaseTag = ReleaseTag.None then ReleaseTag.Public
  else d.effectiveReleaseTag

/-- The whitespace characters relevant to the report text, matched by the
regular expression class `[\s]` used in `areEquivalentApiFileContents`
(the JavaScript class also matches further Unicode space characters, which
never occur in the generator's output). -/
def isWsCharB (c : Char) : Bool :=
  c == ' ' || c == '\t' || c == '\n' || c == '\r' || c == '\x0b' || c == '\x0c'

/-- Worker for the regex replacement `replace(/[\s]+/g, ' ')`: the flag
records whether the previous character belonged to a whitespace run, in which
case further whitespace characters of the same run are dropped; the first
character of each run is replaced by a single space. -/
def collapseWsAux : Bool → List Char → List Char
  | _, [] => []
  | prevWs, c :: rest =>
    if isWsCharB c then
      if prevWs then collapseWsAux true rest
      else ' ' :: collapseWsAux true rest
    else
      c :: collapseWsAux false rest

/-- Embedding of the normalization `content.replace(/[\s]+/g, ' ')`: every
maximal run of whitespace characters is replaced by a single space. -/
def collapseWs (s : List Char) : List Char :=
  collapseWsAux false s

/-- Embedding of `ApiReportGenerator.areEquivalentApiFileContents`: both
documents are normalized by collapsing whitespace runs to a single space and
the results are compared for equality. -/
def areEquivalentApiFileContents (actualFileContent expectedFileContent : List Char) :
    Bool :=
  collapseWs actualFileContent == collapseWs expectedFileContent

/-- Conversion of CRLF line endings to LF, used to speak about two documents
differing only in line-ending convention. -/
def crlfToLf : List Char → List Char
  | [] => []
  | [c] => [c]
  | c :: d :: rest =>
    if c == '\r' && d == '\n' then '\n' :: crlfToLf rest
    else c :: crlfToLf (d :: rest)

/-- The subsequence of non-whitespace characters of a document; two documents
differing in some non-whitespace token have different such subsequences. -/
def nonWsChars (s : List Char) : List Char :=
  s.filter (fun c => !isWsCharB c)

/-- The syntax-node categories that the rewrite policy dispatches on
(`ts.SyntaxKind` values used by the generator), plus a numeric escape for
every other kind. -/
inductive SyntaxKind where
  | jsDocComment
  | exportKeyword
  | defaultKeyword
  | declareKeyword
  | interfaceKeyword
  | classKeyword
  | enumKeyword
  | namespaceKeyword
  | moduleKeyword
  | typeKeyword
  | functionKeyword
  | syntaxList
  | variableDeclaration
  | identifier
  | typeLiteral
  | importType
  | moduleBlock
  | classDeclaration
  | interfaceDeclaration
  | enumDeclaration
  | moduleDeclaration
  | typeAliasDeclaration
  | functionDeclaration
  | firstPunctuation
  | closeBraceToken
  | otherKind (code : Nat)
deriving DecidableEq, Repr

/-- Modelled from the spec: `AstDeclaration.isSupportedSyntaxKind` (not under
src/) — the supported declaration kinds, i.e. the node kinds that correspond
to API declarations of their own. -/
def isSupportedSyntaxKind : SyntaxKind → Bool
  | .classDeclaration => true
  | .interfaceDeclaration => true
  | .enumDeclaration => true
  | .moduleDeclaration => true
  | .typeAliasDeclaration => true
  | .functionDeclaration => true
  | .variableDeclaration => true
  | _ => false

/-- Modelled from the spec: the per-span modification overlay (the
`SpanModification` class of Span.ts, not under src/).  The prefix overlay
defaults to the span's own leading text, so that plain assignment replaces
that text (identifier renaming) and string concatenation with the current
value prepends to it; `none` means "left at the default".  `skipAll` empties
the prefix and suffix, omits the children and omits the trailing
separator, which suppresses the entire subtree. -/
structure SpanModification where
  prefixMod : Option (List Char) := none
  suffixMod : Option (List Char) := none
  omitChildren : Bool := false
  omitSeparatorAfter : Bool := false
  sortChildren : Bool := false
  sortKey : Option (List Char) := none
deriving DecidableEq, Repr

/-- Embedding of `SpanModification.skipAll()`. -/
def SpanModification.skipAll (m : SpanModification) : SpanModification :=
  { m with
    prefixMod := some []
    suffixMod := some []
    omitChildren := true
    omitSeparatorAfter := true }

/-- True when every overlay field is left at its default. -/
def SpanModification.isDefault (m : SpanModification) : Bool :=
  decide (m = {})

mutual

/-- Modelled from the spec: a Span mirrors one syntax-tree node: its own text
is the node's leading text (`prefixText`), followed by the children, followed
by the trailing text (`suffixText`); `separatorText` is the original text
standing between this node and its next sibling, emitted after the node
unless suppressed.  Each span carries its mutable modification overlay. -/
inductive Span where
  | mk (nodeId : Nat) (kind : SyntaxKind)
      (prefixText suffixText separatorText : List Char)
      (children : SpanList) (modification : SpanModification)

/-- The ordered children of a `Span`. -/
inductive SpanList where
  | nil
  | cons (head : Span) (tail : SpanList)

end

/-- The syntax kind of a span. -/
def Span.kind : Span → SyntaxKind
  | .mk _ k _ _ _ _ _ => k

/-- The node identity of a span (used by the collector lookups). -/
def Span.nodeId : Span → Nat
  | .mk n _ _ _ _ _ _ => n

/-- The span's own leading text. -/
def Span.prefixText : Span → List Char
  | .mk _ _ pre _ _ _ _ => pre

/-- The span's own trailing text. -/
def Span.suffixText : Span → List Char
  | .mk _ _ _ suf _ _ _ => suf

/-- The original separator text that follows the span. -/
def Span.separatorText : Span → List Char
  | .mk _ _ _ _ sep _ _ => sep

/-- The span's children. -/
def Span.children : Span → SpanList
  | .mk _ _ _ _ _ cs _ => cs

/-- The span's modification overlay. -/
def Span.modification : Span → SpanModification
  | .mk _ _ _ _ _ _ m => m

/-- Replaces a span's modification overlay, leaving the structure intact. -/
def Span.withModification (s : Span) (m : SpanModification) : Span :=
  match s with
  | .mk n k pre suf sep cs _ => .mk n k pre suf sep cs m

/-- The currently effective prefix text of a span: the overlay value if one
was assigned, the original leading text otherwise (the getter of
`SpanModification.prefix`). -/
def Span.prefixValue (s : Span) : List Char :=
  s.modification.prefixMod.getD s.prefixText

/-- Conversion of the children structure to an ordinary list. -/
def SpanList.toList : SpanList → List Span
  | .nil => []
  | .cons s rest => s :: SpanList.toList rest

/-- Lexicographic comparison of character lists, matching the default
JavaScript string ordering on the code points that occur in reports. -/
def listCharLe : List Char → List Char → Bool
  | [], _ => true
  | _ :: _, [] => false
  | c :: cs, d :: ds => if c = d then listCharLe cs ds else decide (c < d)

/-- Stable insertion of a keyed rendering into an already sorted list: the
new element goes after every element whose key is not greater. -/
def insertByKey (x : List Char × List Char) :
    List (List Char × List Char) → List (List Char × List Char)
  | [] => [x]
  | y :: ys => if listCharLe y.1 x.1 then y :: insertByKey x ys else x :: y :: ys

/-- Stable sort of keyed renderings by sort key (insertion sort; ties keep
their original order). -/
def sortByKey (xs : List (List Char × List Char)) : List (List Char × List Char) :=
  xs.foldl (fun acc x => insertByKey x acc) []

/-- The keyed subsequence of a list of child renderings. -/
def keyedOf (ps : List (Option (List Char) × List Char)) :
    List (List Char × List Char) :=
  ps.filterMap fun p =>
    match p.1 with
    | some k => some (k, p.2)
    | none => none

/-- Refills the keyed positions of the original child sequence with the
sorted keyed renderings; children without a sort key are fixed anchors that
keep their position. -/
def refillSorted : List (Option (List Char) × List Char) →
    List (List Char × List Char) → List (Option (List Char) × List Char)
  | [], _ => []
  | (none, t) :: rest, s => (none, t) :: refillSorted rest s
  | (some k, t) :: rest, [] => (some k, t) :: refillSorted rest []
  | (some _, _) :: rest, (k, t) :: s => (some k, t) :: refillSorted rest s

/-- Modelled from the spec: the child-reordering step of the span writer —
children carrying a sort key are reordered by key (stable), children without
one are fixed anchors keeping their positions. -/
def anchorSortChildren (ps : List (Option (List Char) × List Char)) :
    List (Option (List Char) × List Char) :=
  refillSorted ps (sortByKey (keyedOf ps))

/-- Concatenation of the rendered texts of a child sequence. -/
def renderPairsText (ps : List (Option (List Char) × List Char)) : List Char :=
  (ps.map Prod.snd).flatten

mutual

/-- Modelled from the spec: the original text covered by a span (and the
separator that follows it) — leading text, children in source order, trailing
text, separator. -/
def Span.getText : Span → List Char
  | .mk _ _ pre suf sep cs _ => pre ++ SpanList.getTextList cs ++ suf ++ sep

/-- Concatenated original text of a child sequence. -/
def SpanList.getTextList : SpanList → List Char
  | .nil => []
  | .cons s rest => Span.getText s ++ SpanList.getTextList rest

end

mutual

/-- Modelled from the spec: `Span.writeModifiedText` (Span.ts, not under
src/) — serializes a span honoring its overlay: the effective prefix (the
overlay value or the original leading text), then the children (omitted when
`omitChildren`; reordered by sort key when `sortChildren`), then the
effective suffix, then the original separator unless suppressed. -/
def Span.writeModifiedText : Span → List Char
  | .mk _ _ pre suf sep cs m =>
    (m.prefixMod.getD pre) ++
    (if m.omitChildren then []
     else
       renderPairsText
         (if m.sortChildren then anchorSortChildren (SpanList.renderPairs cs)
          else SpanList.renderPairs cs)) ++
    (m.suffixMod.getD suf) ++
    (if m.omitSeparatorAfter then [] else sep)

/-- The children of a span rendered in source order, each paired with its
sort key. -/
def SpanList.renderPairs : SpanList → List (Option (List Char) × List Char)
  | .nil => []
  | .cons s rest =>
    (Span.modification s |>.sortKey, Span.writeModifiedText s) ::
      SpanList.renderPairs rest

end

mutual

/-- True when every overlay field in the whole tree is at its default. -/
def Span.allDefaultMods : Span → Bool
  | .mk _ _ _ _ _ cs m => m.isDefault && SpanList.allDefaultModsList cs

/-- True when every overlay field of every span in the sequence is at its
default. -/
def SpanList.allDefaultModsList : SpanList → Bool
  | .nil => true
  | .cons s rest => Span.allDefaultMods s && SpanList.allDefaultModsList rest

end

/-- A small concrete span tree (a class declaration with two children) used
to witness the identity property. -/
def witnessSpanC1 : Span :=
  .mk 0 SyntaxKind.classDeclaration [] [] []
    (SpanList.cons (.mk 1 SyntaxKind.classKeyword ("class".toList) [] (" ".toList)
        SpanList.nil {})
      (SpanList.cons (.mk 2 SyntaxKind.identifier ("Foo".toList) [] []
          SpanList.nil {})
        SpanList.nil))
    {}

/-- Builds the children structure from an ordinary list. -/
def SpanList.ofList : List Span → SpanList
  | [] => .nil
  | s :: rest => .cons s (SpanList.ofList rest)

/-- The marker suffix written by the pre-approved policy (the literal
`' { /* (preapproved) */ }'` from the source). -/
def preapprovedMarker : List Char := " \x7b /* (preapproved) */ \x7d".toList

/-- One step of the pre-approved child scan: a child is suppressed when the
scan already passed the identifier or when it is a syntax list or a JSDoc
comment; an identifier child additionally receives the marker suffix, has its
following separator omitted, and switches the scan into suppression mode. -/
def preapprovedChildStep (skipRest : Bool) (c : Span) : Bool × Span :=
  let m := c.modification
  let m1 :=
    if skipRest || c.kind == SyntaxKind.syntaxList || c.kind == SyntaxKind.jsDocComment
    then m.skipAll else m
  if c.kind == SyntaxKind.identifier then
    (true,
     c.withModification
       { m1 with omitSeparatorAfter := true, suffixMod := some preapprovedMarker })
  else
    (skipRest, c.withModification m1)

/-- The child loop of `_modifySpanForPreapproved`, threading the `skipRest`
state through the children in order. -/
def preapprovedChildren : Bool → SpanList → SpanList
  | _, .nil => .nil
  | skipRest, .cons c rest =>
    let sc := preapprovedChildStep skipRest c
    .cons sc.2 (preapprovedChildren sc.1 rest)

/-- Embedding of `ApiReportGenerator._modifySpanForPreapproved`: a single
non-recursive pass over the immediate children. -/
def _modifySpanForPreapproved (span : Span) : Span :=
  match span with
  | .mk n k pre suf sep cs m => .mk n k pre suf sep (preapprovedChildren false cs) m

/-- The children before the identifier in the concrete pre-approved class
declaration span used below. -/
def c8Before : List Span :=
  [.mk 11 SyntaxKind.syntaxList ("export declare".toList) [] (" ".toList)
      SpanList.nil {},
   .mk 12 SyntaxKind.classKeyword ("class".toList) [] (" ".toList)
      SpanList.nil {}]

/-- The identifier child of the concrete pre-approved class declaration. -/
def c8Idc : Span :=
  .mk 13 SyntaxKind.identifier ("_PreapprovedClass".toList) [] (" ".toList)
    SpanList.nil {}

/-- The children after the identifier in the concrete pre-approved class
declaration span used below. -/
def c8After : List Span :=
  [.mk 14 SyntaxKind.firstPunctuation ("\x7b".toList) [] ("\n".toList)
      SpanList.nil {},
   .mk 15 SyntaxKind.syntaxList ("  member(): void;".toList) [] ("\n".toList)
      SpanList.nil {},
   .mk 16 SyntaxKind.closeBraceToken ("\x7d".toList) [] [] SpanList.nil {}]

/-- A concrete pre-approved class declaration span
(`export declare class _PreapprovedClass { ... }`). -/
def spanC8 : Span :=
  .mk 10 SyntaxKind.classDeclaration [] [] []
    (SpanList.ofList (c8Before ++ c8Idc :: c8After)) {}

/-- Modelled from the spec: the low-level text writer (`IndentedWriter`, not
under src/): an output buffer plus an indentation level (two spaces per
level) inserted at the start of every non-empty line; when
`trimLeadingSpaces` is set, space characters at the start of a written line
are discarded before the indentation is applied. -/
structure IndentedWriter where
  buffer : List Char := []
  indentLevel : Nat := 0
  atLineStart : Bool := true
  trimLeadingSpaces : Bool := false

/-- The indentation text currently in effect. -/
def IndentedWriter.indentChars (w : IndentedWriter) : List Char :=
  List.replicate (2 * w.indentLevel) ' '

/-- Writes one character, handling line starts. -/
def IndentedWriter.writeChar (w : IndentedWriter) (c : Char) : IndentedWriter :=
  if c = '\n' then { w with buffer := w.buffer ++ ['\n'], atLineStart := true }
  else if w.atLineStart && w.trimLeadingSpaces && c = ' ' then w
  else if w.atLineStart then
    { w with buffer := w.buffer ++ w.indentChars ++ [c], atLineStart := false }
  else { w with buffer := w.buffer ++ [c], atLineStart := false }

/-- Writes a chunk of text character by character. -/
def IndentedWriter.write (w : IndentedWriter) (s : List Char) : IndentedWriter :=
  s.foldl IndentedWriter.writeChar w

/-- Writes a chunk of text followed by a newline. -/
def IndentedWriter.writeLine (w : IndentedWriter) (s : List Char) : IndentedWriter :=
  w.write (s ++ ['\n'])

/-- Ensures the buffer ends at a line boundary (no-op on an empty buffer). -/
def IndentedWriter.ensureNewLine (w : IndentedWriter) : IndentedWriter :=
  match w.buffer.getLast? with
  | some c => if c = '\n' then w else w.write ['\n']
  | none => w

/-- Ensures the buffer ends with a blank line (no-op on an empty buffer). -/
def IndentedWriter.ensureSkippedLine (w : IndentedWriter) : IndentedWriter :=
  let w1 := w.ensureNewLine
  match w1.buffer.getLast? with
  | none => w1
  | some _ =>
    if w1.buffer.dropLast.getLast? = some '\n' then w1 else w1.write ['\n']

/-- Increases the indentation by one level. -/
def IndentedWriter.increaseIndent (w : IndentedWriter) : IndentedWriter :=
  { w with indentLevel := w.indentLevel + 1 }

/-- Decreases the indentation by one level. -/
def IndentedWriter.decreaseIndent (w : IndentedWriter) : IndentedWriter :=
  { w with indentLevel := w.indentLevel - 1 }

/-- Modelled from the spec: `Text.convertToLf` from the node-core-library
package (not under src/) — normalizes CRLF pairs and lone CR characters to
LF. -/
def convertToLf : List Char → List Char
  | [] => []
  | [c] => if c = '\r' then ['\n'] else [c]
  | c :: d :: rest =>
    if c = '\r' && d = '\n' then '\n' :: convertToLf rest
    else if c = '\r' then '\n' :: convertToLf (d :: rest)
    else c :: convertToLf (d :: rest)

/-- Splits a text at newline characters (the `split('\n')` of the source). -/
def splitOnNl : List Char → List (List Char)
  | [] => [[]]
  | c :: rest =>
    if c = '\n' then [] :: splitOnNl rest
    else
      match splitOnNl rest with
      | [] => [[c]]
      | l :: ls => (c :: l) :: ls

/-- Embedding of `ApiReportGenerator._writeLineAsComments`: normalizes the
message to LF, splits it into lines, and writes each line as a `// ` comment
line. -/
def _writeLineAsComments (writer : IndentedWriter) (line : List Char) :
    IndentedWriter :=
  (splitOnNl (convertToLf line)).foldl
    (fun w realLine => ((w.write ("// ".toList)).write realLine).writeLine [])
    writer

/-- Modelled from the spec: `ReleaseTag.getTagName` from the
api-extractor-model package (not under src/). -/
def ReleaseTag.getTagName : ReleaseTag → List Char
  | .None => "(none)".toList
  | .Internal => "@internal".toList
  | .Alpha => "@alpha".toList
  | .Beta => "@beta".toList
  | .Public => "@public".toList

/-- Modelled from the spec: the per-declaration visibility metadata
(`ApiItemMetadata`, not under src/), consumed read-only by the generator. -/
structure ApiItemMetadata where
  effectiveReleaseTag : ReleaseTag := ReleaseTag.None
  releaseTagSameAsParent : Bool := false
  isSealed : Bool := false
  isVirtual : Bool := false
  isOverride : Bool := false
  isEventProperty : Bool := false
  hasTsdocDeprecatedBlock : Bool := false
  undocumented : Bool := false
  isPreapproved : Bool := false
deriving Repr

/-- Modelled from the spec: a diagnostic message (`ExtractorMessage`, not
under src/): its optional associated export name, and its formatted text with
and without location. -/
structure ExtractorMessage where
  exportName : Option (List Char) := none
  messageText : List Char := []
  messageTextWithLocation : List Char := []
deriving Repr, DecidableEq

/-- Modelled from the spec: a declaration consumed read-only by the generator
(`AstDeclaration`, not under src/): an identity used by the collector
lookups, its modifier flags, its local name, and the span built from its
syntax node. -/
structure AstDeclaration where
  declId : Nat
  modifierFlags : Nat := 0
  localName : List Char := []
  declarationSpan : Span

/-- Modelled from the spec: a local entity re-exported by an aliased module
(one value of `exportedLocalEntities`), with the key used to look up its
collector entity. -/
structure LocalExportedEntity where
  localName : List Char
  entityKey : Nat
deriving Repr

/-- Modelled from the spec: the export info of an aliased module
(`AstModuleExportInfo`, not under src/): how many of its star exports target
external modules, and its local named exports in iteration order. -/
structure AstModuleExportInfo where
  starExportedExternalModulesCount : Nat := 0
  exportedLocalEntities : List (List Char × LocalExportedEntity) := []

/-- Modelled from the spec: the kinds of entity an exported symbol can be
(`AstEntity`, not under src/): a symbol with declarations, an import (its
emitted import statement text is carried directly), a namespace import (its
module export info and the formatted location of its declaration are carried
directly), or something else. -/
inductive AstEntity where
  | astSymbol (astDeclarations : List AstDeclaration)
  | astImport (importStatementText : List Char)
  | astNamespaceImport (moduleExportInfo : AstModuleExportInfo)
      (declarationLocation : List Char)
  | otherEntity

/-- Modelled from the spec: an exported entity tracked by the collector
(`CollectorEntity`, not under src/). -/
structure CollectorEntity where
  astEntity : AstEntity
  consumable : Bool := true
  exportNames : List (List Char) := []
  shouldInlineExport : Bool := false
  nameForEmit : Option (List Char) := none

/-- The result of resolving an identifier occurrence to a tracked entity:
only the canonical emission name is consulted by the rewrite. -/
structure ResolvedEntityRef where
  nameForEmit : Option (List Char)
deriving Repr, DecidableEq

/-- Modelled from the spec: the collector interface consumed by the
generator — the working package data, the entity list, and the queryable
metadata/message/resolution services. -/
structure Collector where
  workingPackageName : List Char := []
  workingPackageHasTsdocComment : Bool := true
  dtsTypeReferenceDirectives : List (List Char) := []
  dtsLibReferenceDirectives : List (List Char) := []
  apiReportIncludeForgottenExports : Bool := false
  entities : List CollectorEntity := []
  fetchApiItemMetadata : Nat → ApiItemMetadata := fun _ => {}
  fetchAssociatedMessagesForReviewFile : Nat → List ExtractorMessage := fun _ => []
  fetchUnassociatedMessagesForReviewFile : List ExtractorMessage := []
  isAncillaryDeclaration : Nat → Bool := fun _ => false
  tryGetEntityForNode : Nat → Option ResolvedEntityRef := fun _ => none
  tryGetCollectorEntity : Nat → Option ResolvedEntityRef := fun _ => none
  getChildAstDeclarationByNode : Nat → AstDeclaration → AstDeclaration :=
    fun _ d => d
  variableListPrefixOfNode : Nat → Option (List Char) := fun _ => none
  starExportedExternalModulePaths : List (List Char) := []

/-- The inclusion inputs of a declaration as fetched through the collector. -/
def inclusionInputOf (collector : Collector) (astDeclaration : AstDeclaration) :
    InclusionInput :=
  ⟨astDeclaration.modifierFlags,
   (collector.fetchApiItemMetadata astDeclaration.declId).effectiveReleaseTag⟩

/-- `_shouldIncludeInReport` as called by the generator, fetching the
metadata through the collector. -/
def shouldIncludeInReportFor (collector : Collector)
    (astDeclaration : AstDeclaration) (releaseLevel : Nat) :
    Except (List Char) Bool :=
  _shouldIncludeInReport (inclusionInputOf collector astDeclaration) releaseLevel

/-- Modelled from the spec: `Collector.getSortKeyIgnoringUnderscore` (not
under src/) — the sort key of a local name under the leading-underscore
insensitive collation. -/
def getSortKeyIgnoringUnderscore (identifier : List Char) : List Char :=
  identifier.dropWhile (· = '_')

/-- The message block of the synopsis: one `// Warning: ...` comment line
per associated message, written into a fresh plain writer. -/
def aedocWarningBlockWriter (messagesToReport : List ExtractorMessage) :
    IndentedWriter :=
  messagesToReport.foldl
    (fun w m => _writeLineAsComments w ("Warning: ".toList ++ m.messageText))
    {}

/-- The footer markers of a declaration's synopsis, in the order the source
pushes them. -/
def aedocFooterParts (collector : Collector) (astDeclaration : AstDeclaration) :
    List (List Char) :=
  let md := collector.fetchApiItemMetadata astDeclaration.declId
  (if ¬md.releaseTagSameAsParent ∧ md.effectiveReleaseTag ≠ ReleaseTag.None
   then [ReleaseTag.getTagName md.effectiveReleaseTag] else []) ++
  (if md.isSealed then ["@sealed".toList] else []) ++
  (if md.isVirtual then ["@virtual".toList] else []) ++
  (if md.isOverride then ["@override".toList] else []) ++
  (if md.isEventProperty then ["@eventProperty".toList] else []) ++
  (if md.hasTsdocDeprecatedBlock then ["@deprecated".toList] else []) ++
  (if md.undocumented then ["(undocumented)".toList] else [])

/-- The footer of the synopsis: for non-ancillary declarations, the stability
markers of the declaration's metadata are appended as one comment line,
separated from the message block by a blank comment line when both are
non-empty. -/
def aedocFooterApply (collector : Collector) (astDeclaration : AstDeclaration)
    (messagesToReport : List ExtractorMessage) (writer : IndentedWriter) :
    IndentedWriter :=
  if collector.isAncillaryDeclaration astDeclaration.declId then writer
  else if (aedocFooterParts collector astDeclaration).length > 0 then
    _writeLineAsComments
      (if messagesToReport.length > 0 then _writeLineAsComments writer []
       else writer)
      (List.intercalate (" ".toList) (aedocFooterParts collector astDeclaration))
  else writer

/-- Embedding of `ApiReportGenerator._getAedocSynopsis`: one comment line per
associated message, then (for non-ancillary declarations) a footer of
stability markers, separated from the message block by one blank comment line
when both are present.  The side effect of raising an `ae-undocumented`
analyzer issue is outside the modelled state and is dropped. -/
def _getAedocSynopsis (collector : Collector) (astDeclaration : AstDeclaration)
    (messagesToReport : List ExtractorMessage) : List Char :=
  (aedocFooterApply collector astDeclaration messagesToReport
    (aedocWarningBlockWriter messagesToReport)).buffer

/-- The declaration-introducing-keyword step of `_modifySpan`: the freshly
computed modifier text (`export ` when the entity's export is inlined) is
prepended to the preceding modifier-list span when one exists, otherwise to
the keyword span itself. -/
def replaceModifierStep (entity : CollectorEntity) (prev : Option Span)
    (pre : List Char) (m0 : SpanModification) (insideTypeLiteral : Bool) :
    SpanModification × Option Span × Bool × Bool × Bool :=
  let replacedModifiers : List Char :=
    if entity.shouldInlineExport then "export ".toList else []
  match prev with
  | some p =>
    if p.kind = SyntaxKind.syntaxList then
      (m0,
       some (p.withModification
         { p.modification with
           prefixMod := some (replacedModifiers ++ p.prefixValue) }),
       true, false, insideTypeLiteral)
    else
      ({ m0 with prefixMod := some (replacedModifiers ++ m0.prefixMod.getD pre) },
       prev, true, false, insideTypeLiteral)
  | none =>
    ({ m0 with prefixMod := some (replacedModifiers ++ m0.prefixMod.getD pre) },
     prev, true, false, insideTypeLiteral)

mutual

/-- Embedding of `ApiReportGenerator._modifySpan`.  The span's current
overlay is passed explicitly as `m0` (the caller may already have applied the
pre-recursion child mutations to it); `parentKind` stands for
`span.parent?.kind` and `prev` for the current state of
`span.previousSibling`, which the declaration-keyword case may mutate — the
possibly updated previous sibling is returned alongside the rewritten span.
The import-type case delegates to an external helper
(`DtsEmitHelpers.modifyImportTypeSpan`, not under src/) whose extra overlay
work is outside the spec's scope and is modelled as a no-op; its children are
still processed by the generic recursion, as in the source. -/
def _modifySpan (collector : Collector) (entity : CollectorEntity)
    (astDeclaration : AstDeclaration) (insideTypeLiteral : Bool)
    (releaseLevel : Nat) (parentKind : Option SyntaxKind)
    (prev : Option Span) (span : Span) (m0 : SpanModification) :
    Except (List Char) (Option Span × Span) :=
  match span with
  | .mk nid k pre suf sep cs _ =>
    match shouldIncludeInReportFor collector astDeclaration releaseLevel with
    | .error e => .error e
    | .ok incl =>
      if incl then
        let step : Except (List Char)
            (SpanModification × Option Span × Bool × Bool × Bool) :=
          match k with
          | SyntaxKind.jsDocComment =>
            .ok (m0.skipAll, prev, false, false, insideTypeLiteral)
          | SyntaxKind.exportKeyword =>
            .ok (m0.skipAll, prev, true, false, insideTypeLiteral)
          | SyntaxKind.defaultKeyword =>
            .ok (m0.skipAll, prev, true, false, insideTypeLiteral)
          | SyntaxKind.declareKeyword =>
            .ok (m0.skipAll, prev, true, false, insideTypeLiteral)
          | SyntaxKind.interfaceKeyword =>
            .ok (replaceModifierStep entity prev pre m0 insideTypeLiteral)
          | SyntaxKind.classKeyword =>
            .ok (replaceModifierStep entity prev pre m0 insideTypeLiteral)
          | SyntaxKind.enumKeyword =>
            .ok (replaceModifierStep entity prev pre m0 insideTypeLiteral)
          | SyntaxKind.namespaceKeyword =>
            .ok (replaceModifierStep entity prev pre m0 insideTypeLiteral)
          | SyntaxKind.moduleKeyword =>
            .ok (replaceModifierStep entity prev pre m0 insideTypeLiteral)
          | SyntaxKind.typeKeyword =>
            .ok (replaceModifierStep entity prev pre m0 insideTypeLiteral)
          | SyntaxKind.functionKeyword =>
            .ok (replaceModifierStep entity prev pre m0 insideTypeLiteral)
          | SyntaxKind.syntaxList =>
            let sortFlag :=
              match parentKind with
              | some pk => isSupportedSyntaxKind pk || pk = SyntaxKind.moduleBlock
              | none => false
            .ok (m0, prev, true, sortFlag, insideTypeLiteral)
          | SyntaxKind.variableDeclaration =>
            match parentKind with
            | none =>
              match collector.variableListPrefixOfNode nid with
              | none => .error ("Unsupported variable declaration".toList)
              | some listPrefixText =>
                let m1 := { m0 with
                  prefixMod := some (listPrefixText ++ m0.prefixMod.getD pre)
                  suffixMod := some (";".toList) }
                let m2 :=
                  if entity.shouldInlineExport then
                    { m1 with
                      prefixMod := some ("export ".toList ++ m1.prefixMod.getD pre) }
                  else m1
                .ok (m2, prev, true, false, insideTypeLiteral)
            | some _ => .ok (m0, prev, true, false, insideTypeLiteral)
          | SyntaxKind.identifier =>
            match collector.tryGetEntityForNode nid with
            | some r =>
              match r.nameForEmit with
              | none => .error ("referencedEntry.nameForEmit is undefined".toList)
              | some nm =>
                .ok ({ m0 with prefixMod := some nm }, prev, true, false,
                  insideTypeLiteral)
            | none => .ok (m0, prev, true, false, insideTypeLiteral)
          | SyntaxKind.typeLiteral => .ok (m0, prev, true, false, true)
          | _ => .ok (m0, prev, true, false, insideTypeLiteral)
        match step with
        | .error e => .error e
        | .ok (m1, prev1, recurse, sortFlag, insideTL) =>
          if recurse then
            match _modifyChildren collector entity astDeclaration insideTL
                releaseLevel k sortFlag none cs with
            | .error e => .error e
            | .ok (_, cs1, sortSet) =>
              let m2 := if sortSet then { m1 with sortChildren := true } else m1
              .ok (prev1, Span.mk nid k pre suf sep cs1 m2)
          else
            .ok (prev1, Span.mk nid k pre suf sep cs m1)
      else
        .ok (prev, Span.mk nid k pre suf sep cs m0.skipAll)

/-- Embedding of the child loop at the end of `_modifySpan`: each supported,
included child first receives its sort key (when the parent marked the list
sortable) and its synopsis-comment prefix (when not inside a type literal),
then is rewritten recursively; a child's rewrite may update the previously
processed sibling, which is replaced in the output.  Returns the updated
incoming previous sibling, the rewritten children, and whether some child
asked the parent to set `sortChildren`. -/
def _modifyChildren (collector : Collector) (entity : CollectorEntity)
    (astDeclaration : AstDeclaration) (insideTypeLiteral : Bool)
    (releaseLevel : Nat) (parentK : SyntaxKind) (sortFlag : Bool)
    (prev : Option Span) (cs : SpanList) :
    Except (List Char) (Option Span × SpanList × Bool) :=
  match cs with
  | .nil => .ok (prev, .nil, false)
  | .cons c rest =>
    let supported := isSupportedSyntaxKind c.kind
    let childDecl :=
      if supported then collector.getChildAstDeclarationByNode c.nodeId astDeclaration
      else astDeclaration
    let premodsE : Except (List Char) (SpanModification × Bool) :=
      if supported then
        match shouldIncludeInReportFor collector childDecl releaseLevel with
        | .error e => .error e
        | .ok incl =>
          if incl then
            let mA :=
              if sortFlag then
                { c.modification with
                  sortKey := some (getSortKeyIgnoringUnderscore childDecl.localName) }
              else c.modification
            let mB :=
              if !insideTypeLiteral then
                { mA with
                  prefixMod := some (_getAedocSynopsis collector childDecl
                    (collector.fetchAssociatedMessagesForReviewFile childDecl.declId) ++
                    mA.prefixMod.getD c.prefixText) }
              else mA
            .ok (mB, sortFlag)
          else .ok (c.modification, false)
      else .ok (c.modification, false)
    match premodsE with
    | .error e => .error e
    | .ok (mB, qualify) =>
      match _modifySpan collector entity childDecl insideTypeLiteral releaseLevel
          (some parentK) prev c mB with
      | .error e => .error e
      | .ok (prev1, c1) =>
        match _modifyChildren collector entity astDeclaration insideTypeLiteral
            releaseLevel parentK sortFlag (some c1) rest with
        | .error e => .error e
        | .ok (lastOpt, rest1, sortSet) =>
          .ok (prev1, .cons (lastOpt.getD c1) rest1, qualify || sortSet)

end

/-- The concrete collector for the C5 witness: node 21 resolves to a tracked
entity whose canonical emission name is `Widget`; node 22 resolves to
nothing. -/
def collectorC5 : Collector :=
  { tryGetEntityForNode := fun n =>
      if n = 21 then some ⟨some ("Widget".toList)⟩ else none }

/-- The declaration context for the C5 witness. -/
def declC5 : AstDeclaration :=
  ⟨0, 0, [], .mk 99 (SyntaxKind.otherKind 0) [] [] [] SpanList.nil {}⟩

/-- The entity context for the C5 witness. -/
def entityC5 : CollectorEntity := { astEntity := AstEntity.otherEntity }

/-- An identifier span occurrence that resolves to the tracked entity. -/
def spanC5 : Span :=
  .mk 21 SyntaxKind.identifier ("LocalAlias".toList) [] (" ".toList)
    SpanList.nil {}

/-- An identifier span occurrence that resolves to no tracked entity. -/
def spanC5b : Span :=
  .mk 22 SyntaxKind.identifier ("Other".toList) [] [] SpanList.nil {}

/-- The options record of `generateReviewFileContent`. -/
structure IApiReportOptions where
  releaseLevel : Nat

/-- One entry of the `exportsToEmit` map: an export name and the messages
peeled off for its export clause. -/
structure ExportToEmit where
  exportName : List Char
  associatedMessages : List ExtractorMessage
deriving DecidableEq

/-- The `Map.set` of the `exportsToEmit` map: replaces the entry of the key
when present, otherwise appends a fresh entry (JavaScript `Map` iteration
follows insertion order). -/
def exportsToEmitSet (acc : List ExportToEmit) (nm : List Char) :
    List ExportToEmit :=
  if acc.any (fun e => e.exportName == nm) then
    acc.map (fun e => if e.exportName == nm then ⟨nm, []⟩ else e)
  else acc ++ [⟨nm, []⟩]

/-- The export-name collection loop of `generateReviewFileContent`: every
export name of the entity gets an entry, except that nothing is collected
when the entity's export is inlined. -/
def computeExportsToEmit (entity : CollectorEntity) : List ExportToEmit :=
  entity.exportNames.foldl
    (fun acc nm => if entity.shouldInlineExport then acc else exportsToEmitSet acc nm)
    []

/-- Appends a message to the entry of the given export name. -/
def exportsToEmitAppendMessage (acc : List ExportToEmit) (nm : List Char)
    (m : ExtractorMessage) : List ExportToEmit :=
  acc.map fun e =>
    if e.exportName == nm then ⟨e.exportName, e.associatedMessages ++ [m]⟩ else e

/-- One step of the message-peeling loop: a message whose (truthy) export
name has an entry in the map is stored with that export; every other message
stays with the declaration. -/
def splitMessagesStep (st : List ExportToEmit × List ExtractorMessage)
    (m : ExtractorMessage) : List ExportToEmit × List ExtractorMessage :=
  match m.exportName with
  | some nm =>
    if nm ≠ [] ∧ st.1.any (fun e => e.exportName == nm) then
      (exportsToEmitAppendMessage st.1 nm m, st.2)
    else (st.1, st.2 ++ [m])
  | none => (st.1, st.2 ++ [m])

/-- The message-peeling loop of `generateReviewFileContent`: splits the
fetched messages between the export clauses and the declaration
(`messagesToReport`). -/
def splitMessagesForExports (exports : List ExportToEmit)
    (fetched : List ExtractorMessage) :
    List ExportToEmit × List ExtractorMessage :=
  fetched.foldl splitMessagesStep (exports, [])

/-- Modelled from the spec: `DtsEmitHelpers.emitImport` (not under src/) —
the entity's import statement text is written on its own line. -/
def emitImport (writer : IndentedWriter) (importStatementText : List Char) :
    IndentedWriter :=
  writer.writeLine importStatementText

/-- Modelled from the spec: `DtsEmitHelpers.emitNamedExport` (not under
src/) — writes the export clause line for one export name of an entity. -/
def emitNamedExport (writer : IndentedWriter) (exportName : List Char)
    (entity : CollectorEntity) : IndentedWriter :=
  let nameForEmit := entity.nameForEmit.getD ("undefined".toList)
  if exportName = "default".toList then
    writer.writeLine ("export default ".toList ++ nameForEmit ++ ";".toList)
  else if nameForEmit ≠ exportName then
    writer.writeLine ("export \x7b ".toList ++ nameForEmit ++ " as ".toList ++
      exportName ++ " \x7d".toList)
  else
    writer.writeLine ("export \x7b ".toList ++ exportName ++ " \x7d".toList)

/-- Modelled from the spec: `DtsEmitHelpers.emitStarExports` (not under
src/) — one `export * from "..."` line per star-exported module path. -/
def emitStarExports (writer : IndentedWriter) (collector : Collector) :
    IndentedWriter :=
  collector.starExportedExternalModulePaths.foldl
    (fun w p => w.writeLine ("export * from \"".toList ++ p ++ "\";".toList))
    writer

/-- The export-statement loop at the end of an entity's block: each entry's
associated messages are written as warning comments above its export clause
line. -/
def emitExportClauses (entity : CollectorEntity) :
    IndentedWriter → List ExportToEmit → IndentedWriter
  | w, [] => w
  | w, e :: rest =>
    let w1 :=
      if e.associatedMessages.length > 0 then
        e.associatedMessages.foldl
          (fun w2 m => _writeLineAsComments w2 ("Warning: ".toList ++ m.messageText))
          w.ensureSkippedLine
      else w
    emitExportClauses entity (emitNamedExport w1 e.exportName entity) rest

/-- Processing of one declaration of an `AstSymbol` entity: its messages are
split between export clauses and the declaration, the synopsis is written,
and the declaration's span is rewritten (with the pre-approved short-circuit)
and serialized. -/
def processDeclaration (collector : Collector) (options : IApiReportOptions)
    (entity : CollectorEntity) (st : IndentedWriter × List ExportToEmit)
    (astDeclaration : AstDeclaration) :
    Except (List Char) (IndentedWriter × List ExportToEmit) :=
  let fetched := collector.fetchAssociatedMessagesForReviewFile astDeclaration.declId
  let split := splitMessagesForExports st.2 fetched
  let w := st.1.ensureSkippedLine
  let w := w.write (_getAedocSynopsis collector astDeclaration split.2)
  let span := astDeclaration.declarationSpan
  let md := collector.fetchApiItemMetadata astDeclaration.declId
  let spanE : Except (List Char) Span :=
    if md.isPreapproved then .ok (_modifySpanForPreapproved span)
    else
      match _modifySpan collector entity astDeclaration false options.releaseLevel
          none none span span.modification with
      | .error e => .error e
      | .ok pr => .ok pr.2
  match spanE with
  | .error e => .error e
  | .ok span1 =>
    let w := w.write (Span.writeModifiedText span1)
    let w := w.ensureNewLine
    .ok (w, split.1)

/-- Processing of all declarations of an `AstSymbol` entity, in order. -/
def processDeclarationList (collector : Collector) (options : IApiReportOptions)
    (entity : CollectorEntity) :
    IndentedWriter × List ExportToEmit → List AstDeclaration →
    Except (List Char) (IndentedWriter × List ExportToEmit)
  | st, [] => .ok st
  | st, d :: rest =>
    match processDeclaration collector options entity st d with
    | .error e => .error e
    | .ok st1 => processDeclarationList collector options entity st1 rest

/-- The export-clause list of a synthetic namespace block: each re-exported
local entity is looked up in the collector (an internal error when missing)
and rendered as `name` or `name as exportedName`. -/
def buildExportClauses (collector : Collector) (n : List Char) :
    List (List Char × LocalExportedEntity) →
    Except (List Char) (List (List Char))
  | [] => .ok []
  | (exportedName, localEnt) :: rest =>
    match collector.tryGetCollectorEntity localEnt.entityKey with
    | none =>
      .error ("Cannot find collector entity for ".toList ++ n ++ ".".toList ++
        localEnt.localName)
    | some ce =>
      let cn := ce.nameForEmit.getD ("undefined".toList)
      let clause := if cn = exportedName then cn
        else cn ++ " as ".toList ++ exportedName
      match buildExportClauses collector n rest with
      | .error e => .error e
      | .ok cls => .ok (clause :: cls)

/-- The `AstNamespaceImport` branch of `generateReviewFileContent`: a missing
emission name is an internal error; a star export of an external module in
the aliased module is a fatal error naming the namespace and citing the
declaration's location; otherwise the synthetic namespace block is emitted. -/
def processNamespaceImport (collector : Collector) (entity : CollectorEntity)
    (info : AstModuleExportInfo) (loc : List Char) (w : IndentedWriter) :
    Except (List Char) IndentedWriter :=
  match entity.nameForEmit with
  | none => .error ("referencedEntry.nameForEmit is undefined".toList)
  | some n =>
    if info.starExportedExternalModulesCount > 0 then
      .error ("The ".toList ++ n ++
        " namespace import includes a star export, which is not supported:\n".toList
        ++ loc)
    else
      match buildExportClauses collector n info.exportedLocalEntities with
      | .error e => .error e
      | .ok clauses =>
        let w := w.ensureSkippedLine
        let w := w.writeLine ("declare namespace ".toList ++ n ++ " \x7b".toList)
        let w := w.increaseIndent
        let w := w.writeLine ("export \x7b".toList)
        let w := w.increaseIndent
        let w := w.writeLine (List.intercalate (",\n".toList) clauses)
        let w := w.decreaseIndent
        let w := w.writeLine ("\x7d".toList)
        let w := w.decreaseIndent
        let w := w.writeLine ("\x7d".toList)
        .ok w

/-- Processing of one entity: skipped unless consumable (or forgotten exports
are included); otherwise exports are collected, the symbol's declarations or
the namespace block are emitted, and the export clauses follow. -/
def processEntity (collector : Collector) (options : IApiReportOptions)
    (w : IndentedWriter) (entity : CollectorEntity) :
    Except (List Char) IndentedWriter :=
  if entity.consumable || collector.apiReportIncludeForgottenExports then
    let exports0 := computeExportsToEmit entity
    let stE : Except (List Char) (IndentedWriter × List ExportToEmit) :=
      match entity.astEntity with
      | .astSymbol decls =>
        processDeclarationList collector options entity (w, exports0) decls
      | _ => .ok (w, exports0)
    match stE with
    | .error e => .error e
    | .ok st =>
      let nsE : Except (List Char) IndentedWriter :=
        match entity.astEntity with
        | .astNamespaceImport info loc =>
          processNamespaceImport collector entity info loc st.1
        | _ => .ok st.1
      match nsE with
      | .error e => .error e
      | .ok w1 => .ok ((emitExportClauses entity w1 st.2).ensureSkippedLine)
  else .ok w

/-- Processing of the entity list, in iteration order; a fatal error aborts
the remaining entities. -/
def processEntityList (collector : Collector) (options : IApiReportOptions) :
    IndentedWriter → List CollectorEntity →
    Except (List Char) IndentedWriter
  | w, [] => .ok w
  | w, e :: rest =>
    match processEntity collector options w e with
    | .error err => .error err
    | .ok w1 => processEntityList collector options w1 rest

/-- Stable insertion of a string into a sorted list of strings. -/
def insertString (x : List Char) : List (List Char) → List (List Char)
  | [] => [x]
  | y :: ys => if listCharLe y x then y :: insertString x ys else x :: y :: ys

/-- The sorted copy of a string list (`Array.from(...).sort()`). -/
def sortStringList (xs : List (List Char)) : List (List Char) :=
  xs.foldl (fun acc x => insertString x acc) []

/-- The markdown header block written at the top of the report. -/
def reportHeaderText (packageName : List Char) : List Char :=
  "## API Report File for \"".toList ++ packageName ++ "\"\n\n".toList ++
  "> Do not edit this file. It is a report generated by [API Extractor](https://api-extractor.com/).\n".toList

/-- The assembly of the whole report before the final trailing-space pass:
header, code fence, sorted directive references, imports, entity blocks, star
exports, unassociated warnings, the missing-package-documentation note, and
the closing fence. -/
def assembleReport (collector : Collector) (options : IApiReportOptions) :
    Except (List Char) (List Char) :=
  let writer : IndentedWriter := { trimLeadingSpaces := true }
  let w := writer.writeLine (reportHeaderText collector.workingPackageName)
  let w := w.writeLine ("```ts\n".toList)
  let w := (sortStringList collector.dtsTypeReferenceDirectives).foldl
    (fun w d => w.writeLine ("/// <reference types=\"".toList ++ d ++ "\" />".toList)) w
  let w := (sortStringList collector.dtsLibReferenceDirectives).foldl
    (fun w d => w.writeLine ("/// <reference lib=\"".toList ++ d ++ "\" />".toList)) w
  let w := w.ensureSkippedLine
  let w := collector.entities.foldl
    (fun w e =>
      match e.astEntity with
      | .astImport t => emitImport w t
      | _ => w) w
  let w := w.ensureSkippedLine
  match processEntityList collector options w collector.entities with
  | .error e => .error e
  | .ok w =>
    let w := emitStarExports w collector
    let w :=
      if collector.fetchUnassociatedMessagesForReviewFile.length > 0 then
        let w := w.ensureSkippedLine
        let w := _writeLineAsComments w
          ("Warnings were encountered during analysis:".toList)
        let w := _writeLineAsComments w []
        collector.fetchUnassociatedMessagesForReviewFile.foldl
          (fun w m => _writeLineAsComments w m.messageTextWithLocation) w
      else w
    let w :=
      if collector.workingPackageHasTsdocComment then w
      else
        _writeLineAsComments w.ensureSkippedLine
          ("(No @packageDocumentation comment for this package)".toList)
    let w := w.ensureSkippedLine
    let w := w.writeLine ("```".toList)
    .ok w.buffer

/-- Worker of the trailing-space regex `/ +$/gm`: pending spaces are dropped
when the line ends (at a newline or at the end of the text) and flushed when
a non-space character follows them. -/
def trimAux : Nat → List Char → List Char
  | _, [] => []
  | pending, c :: rest =>
    if c = ' ' then trimAux (pending + 1) rest
    else if c = '\n' then '\n' :: trimAux 0 rest
    else List.replicate pending ' ' ++ c :: trimAux 0 rest

/-- Embedding of `content.replace(/ +$/gm, '')`: removes every run of space
characters standing immediately before a line ending or the end of text. -/
def trimTrailingSpaces (s : List Char) : List Char :=
  trimAux 0 s

/-- Embedding of `ApiReportGenerator.generateReviewFileContent`: the
assembled report with the trailing-space pass applied as the final step. -/
def generateReviewFileContent (collector : Collector)
    (options : IApiReportOptions) : Except (List Char) (List Char) :=
  (assembleReport collector options).map trimTrailingSpaces

/-- The namespace-import entity used by the C6 witness: its module
star-exports one external module. -/
def entityC6 : CollectorEntity :=
  { astEntity := AstEntity.astNamespaceImport
      { starExportedExternalModulesCount := 1 } ("lib/mod.ts:3".toList)
    consumable := true
    nameForEmit := some ("helpers".toList) }

/-- The collector used by the C6 witness. -/
def collectorC6 : Collector := { entities := [entityC6] }

/-- The untrimmed report options used by several witnesses. -/
def reportOptionsUntrimmed : IApiReportOptions := ⟨0⟩

/-- True when a line ends in one of the report's whitespace characters. -/
def lastCharIsWs (l : List Char) : Bool :=
  match l.getLast? with
  | some c => isWsCharB c
  | none => false

/-- True when no space character stands immediately before a newline or at
the end of the text — i.e. no line of the text ends with a space. -/
def noTrailSpaceB : List Char → Bool
  | [] => true
  | [c] => !(c == ' ')
  | c :: d :: rest => !(c == ' ' && d == '\n') && noTrailSpaceB (d :: rest)

/-- The generated report of a collector, or the empty text when generation
aborts. -/
def reportOrEmpty (collector : Collector) (options : IApiReportOptions) :
    List Char :=
  match generateReviewFileContent collector options with
  | .ok out => out
  | .error _ => []

/-- A plain concrete collector for the C9 witness. -/
def collectorC9 : Collector := { workingPackageName := "pkg".toList }

/-- A collector whose only content is an unassociated analysis warning whose
formatted text ends with a tab character. -/
def collectorC9bad : Collector :=
  { fetchUnassociatedMessagesForReviewFile :=
      [{ messageTextWithLocation := "warning with tab\there\t".toList }] }

/-- The inlined-export entity used by the C10 witness. -/
def entityC10 : CollectorEntity :=
  { astEntity := AstEntity.otherEntity
    shouldInlineExport := true
    exportNames := ["Widget".toList] }

/-- The export-named message used by the C10 witness. -/
def msgC10 : ExtractorMessage :=
  { exportName := some ("Widget".toList), messageText := "problem".toList }

theorem shouldInclude_of_private (d : InclusionInput)
    (hpriv : Nat.land d.modifierFlags tsModifierFlagsPrivate ≠ 0)
    (releaseLevel : Nat) :
    _shouldIncludeInReport d releaseLevel = .ok false := by
  simp [_shouldIncludeInReport, hpriv]

/-- C2: a private declaration is never included at any threshold value; a
non-private declaration is included at `Untrimmed` always, at `Alpha` iff its
effective tag (unspecified treated as public) is at least alpha, at `Beta`
iff at least beta, and at `Public` iff the effective tag is exactly public. -/
theorem c2_inclusion_rule (d : InclusionInput) :
    (Nat.land d.modifierFlags tsModifierFlagsPrivate ≠ 0 →
      ∀ releaseLevel : Nat, _shouldIncludeInReport d releaseLevel = .ok false) ∧
    (Nat.land d.modifierFlags tsModifierFlagsPrivate = 0 →
      _shouldIncludeInReport d ApiReportReleaseLevel.Untrimmed = .ok true ∧
      _shouldIncludeInReport d ApiReportReleaseLevel.Alpha =
        .ok (decide (releaseTagToNat (effectiveTagOrPublic d) ≥
          releaseTagToNat ReleaseTag.Alpha)) ∧
      _shouldIncludeInReport d ApiReportReleaseLevel.Beta =
        .ok (decide (releaseTagToNat (effectiveTagOrPublic d) ≥
          releaseTagToNat ReleaseTag.Beta)) ∧
      _shouldIncludeInReport d ApiReportReleaseLevel.Public =
        .ok (decide (effectiveTagOrPublic d = ReleaseTag.Public))) := by
  constructor
  · intro hpriv releaseLevel
    exact shouldInclude_of_private d hpriv releaseLevel
  · intro hpub
    refine ⟨?_, ?_, ?_, ?_⟩ <;>
      simp [_shouldIncludeInReport, hpub, effectiveTagOrPublic,
        ApiReportReleaseLevel.Untrimmed, ApiReportReleaseLevel.Alpha,
        ApiReportReleaseLevel.Beta, ApiReportReleaseLevel.Public]

/-- Witness for C2 at a concrete input: a private beta-tagged declaration is
excluded at `Untrimmed`, and a non-private beta-tagged declaration is
excluded at the `Public` threshold. -/
theorem c2_inclusion_rule_witness :
    _shouldIncludeInReport ⟨8, ReleaseTag.Beta⟩ ApiReportReleaseLevel.Untrimmed
        = .ok false ∧
    _shouldIncludeInReport ⟨0, ReleaseTag.Beta⟩ ApiReportReleaseLevel.Public
        = .ok (decide (effectiveTagOrPublic ⟨0, ReleaseTag.Beta⟩ = ReleaseTag.Public)) :=
  ⟨(c2_inclusion_rule ⟨8, ReleaseTag.Beta⟩).1 (by decide) ApiReportReleaseLevel.Untrimmed,
   ((c2_inclusion_rule ⟨0, ReleaseTag.Beta⟩).2 (by decide)).2.2.2⟩

/-- C4: the inclusion predicate is monotone in the threshold: whenever
`T1 ≤ T2` (both among the four recognized levels, ordered
untrimmed < alpha < beta < public) and the declaration is included at `T2`,
it is also included at `T1`; this holds with no exception, including across
the public boundary (a declaration included at `Public` has tag exactly
public, hence passes every lower threshold's `≥` test). -/
theorem c4_inclusion_monotone (d : InclusionInput) (t1 t2 : Nat)
    (hle : t1 ≤ t2) (ht2 : t2 ≤ ApiReportReleaseLevel.Public)
    (hinc : _shouldIncludeInReport d t2 = .ok true) :
    _shouldIncludeInReport d t1 = .ok true := by
  by_cases hpriv : Nat.land d.modifierFlags tsModifierFlagsPrivate ≠ 0
  · exfalso
    have := shouldInclude_of_private d hpriv t2
    rw [hinc] at this
    simp at this
  · push_neg at hpriv
    simp only [ApiReportReleaseLevel.Public] at ht2
    interval_cases t2 <;> interval_cases t1 <;>
      revert hinc <;>
      simp [_shouldIncludeInReport, hpriv, ApiReportReleaseLevel.Untrimmed,
        ApiReportReleaseLevel.Alpha, ApiReportReleaseLevel.Beta,
        ApiReportReleaseLevel.Public] <;>
      cases hd : d.effectiveReleaseTag <;> simp [releaseTagToNat]

/-- Witness for C4 at a concrete input: a public-tagged declaration included
at the `Public` threshold is also included at `Beta`. -/
theorem c4_inclusion_monotone_witness :
    _shouldIncludeInReport ⟨0, ReleaseTag.Public⟩ ApiReportReleaseLevel.Beta
      = .ok true :=
  c4_inclusion_monotone ⟨0, ReleaseTag.Public⟩ ApiReportReleaseLevel.Beta
    ApiReportReleaseLevel.Public (by decide) (by decide) rfl

/-- Counterexample for C7 as stated: at the unrecognized threshold value `7`,
a declaration carrying the private modifier makes `_shouldIncludeInReport`
return `false` (the private check runs before the threshold switch), so the
predicate does not throw for every unrecognized threshold value. -/
theorem c7_counterexample_private_preempts_throw :
    _shouldIncludeInReport ⟨8, ReleaseTag.Public⟩ 7 = .ok false := rfl

/-- C7 (amended): for a declaration without a private modifier, every
unrecognized threshold value makes the predicate throw an error whose message
names that value, and the four recognized levels never throw; a private
declaration instead returns `false` before the threshold is inspected. -/
theorem c7_unrecognized_level_throws (d : InclusionInput) (releaseLevel : Nat) :
    (Nat.land d.modifierFlags tsModifierFlagsPrivate = 0 →
      ApiReportReleaseLevel.Public < releaseLevel →
      _shouldIncludeInReport d releaseLevel =
        .error (("Unrecognized release level: ".toList) ++
          (Nat.repr releaseLevel).toList)) ∧
    (releaseLevel ≤ ApiReportReleaseLevel.Public →
      ∃ b : Bool, _shouldIncludeInReport d releaseLevel = .ok b) := by
  constructor
  · intro hpub hbig
    simp only [ApiReportReleaseLevel.Public] at hbig
    have h0 : releaseLevel ≠ ApiReportReleaseLevel.Untrimmed := by
      simp [ApiReportReleaseLevel.Untrimmed]; omega
    have h1 : releaseLevel ≠ ApiReportReleaseLevel.Alpha := by
      simp [ApiReportReleaseLevel.Alpha]; omega
    have h2 : releaseLevel ≠ ApiReportReleaseLevel.Beta := by
      simp [ApiReportReleaseLevel.Beta]; omega
    have h3 : releaseLevel ≠ ApiReportReleaseLevel.Public := by
      simp [ApiReportReleaseLevel.Public]; omega
    simp [_shouldIncludeInReport, hpub, h0, h1, h2, h3]
  · intro hsmall
    by_cases hpriv : Nat.land d.modifierFlags tsModifierFlagsPrivate ≠ 0
    · exact ⟨false, shouldInclude_of_private d hpriv releaseLevel⟩
    · push_neg at hpriv
      simp only [ApiReportReleaseLevel.Public] at hsmall
      interval_cases releaseLevel <;>
        simp [_shouldIncludeInReport, hpriv, ApiReportReleaseLevel.Untrimmed,
          ApiReportReleaseLevel.Alpha, ApiReportReleaseLevel.Beta,
          ApiReportReleaseLevel.Public]

/-- Witness for C7 (amended) at a concrete input: threshold value `9` throws
the naming error for a non-private declaration, and threshold `2` does not
throw. -/
theorem c7_unrecognized_level_throws_witness :
    _shouldIncludeInReport ⟨0, ReleaseTag.Alpha⟩ 9 =
      .error (("Unrecognized release level: ".toList) ++ (Nat.repr 9).toList) ∧
    ∃ b : Bool, _shouldIncludeInReport ⟨0, ReleaseTag.Alpha⟩ 2 = .ok b :=
  ⟨(c7_unrecognized_level_throws ⟨0, ReleaseTag.Alpha⟩ 9).1 (by decide) (by decide),
   (c7_unrecognized_level_throws ⟨0, ReleaseTag.Alpha⟩ 2).2 (by decide)⟩

theorem collapseWsAux_filter (s : List Char) :
    ∀ b : Bool, (collapseWsAux b s).filter (fun c => !isWsCharB c) = nonWsChars s := by
  induction s with
  | nil => intro b; simp [collapseWsAux, nonWsChars]
  | cons c rest ih =>
    intro b
    by_cases hc : isWsCharB c
    · have hsp : isWsCharB ' ' = true := by decide
      cases b <;>
        simp [collapseWsAux, hc, nonWsChars, List.filter_cons, ih, hsp]
    · simp [collapseWsAux, hc, nonWsChars, List.filter_cons, ih false]

theorem collapseWsAux_crlf : ∀ (s : List Char) (b : Bool),
    collapseWsAux b (crlfToLf s) = collapseWsAux b s
  | [], _ => rfl
  | [c], _ => rfl
  | c :: d :: rest, b => by
    by_cases h : c == '\r' && d == '\n'
    · have hcd : c = '\r' ∧ d = '\n' := by simpa using h
      obtain ⟨hc, hd⟩ := hcd
      subst hc; subst hd
      show collapseWsAux b ('\n' :: crlfToLf rest) = _
      have hr : isWsCharB '\r' = true := by decide
      have hn : isWsCharB '\n' = true := by decide
      cases b <;>
        simp [crlfToLf, collapseWsAux, hr, hn, collapseWsAux_crlf rest true]
    · have hstep : crlfToLf (c :: d :: rest) = c :: crlfToLf (d :: rest) := by
        simp [crlfToLf, h]
      rw [hstep]
      by_cases hc : isWsCharB c
      · cases b <;>
          simp [collapseWsAux, hc, collapseWsAux_crlf (d :: rest) true]
      · cases b <;>
          simp [collapseWsAux, hc, collapseWsAux_crlf (d :: rest) false]

theorem collapseWsAux_dup_ws (w w' : Char) (v : List Char)
    (hw : isWsCharB w = true) (hw' : isWsCharB w' = true) (b : Bool) :
    collapseWsAux b (w :: w' :: v) = collapseWsAux b (w' :: v) := by
  cases b <;> simp [collapseWsAux, hw, hw']

theorem collapseWsAux_congr_append (u : List Char) {x y : List Char}
    (h : ∀ b : Bool, collapseWsAux b x = collapseWsAux b y) :
    ∀ b : Bool, collapseWsAux b (u ++ x) = collapseWsAux b (u ++ y) := by
  induction u with
  | nil => intro b; exact h b
  | cons c rest ih =>
    intro b
    by_cases hc : isWsCharB c <;> cases b <;>
      simp [collapseWsAux, hc, ih]

/-- C3: the report equivalence check returns `true` exactly when the two
documents agree after collapsing every maximal whitespace run to one space;
consequently a document is equivalent to its CRLF-normalized form and to the
form with a blank line inserted at an existing line break, while two
documents whose non-whitespace characters differ are never equivalent. -/
theorem c3_equivalence_check :
    (∀ a b : List Char,
      areEquivalentApiFileContents a b = true ↔ collapseWs a = collapseWs b) ∧
    (∀ s : List Char, areEquivalentApiFileContents s (crlfToLf s) = true) ∧
    (∀ u v : List Char,
      areEquivalentApiFileContents (u ++ '\n' :: '\n' :: v) (u ++ '\n' :: v) = true) ∧
    (∀ a b : List Char, nonWsChars a ≠ nonWsChars b →
      areEquivalentApiFileContents a b = false) := by
  refine ⟨?_, ?_, ?_, ?_⟩
  · intro a b
    simp [areEquivalentApiFileContents]
  · intro s
    simp [areEquivalentApiFileContents, collapseWs, collapseWsAux_crlf]
  · intro u v
    have h := collapseWsAux_congr_append u
      (x := '\n' :: '\n' :: v) (y := '\n' :: v)
      (fun b => collapseWsAux_dup_ws '\n' '\n' v (by decide) (by decide) b)
    simp [areEquivalentApiFileContents, collapseWs, h false]
  · intro a b hne
    apply Bool.eq_false_iff.2
    intro heq
    apply hne
    have hcoll : collapseWs a = collapseWs b := by
      simpa [areEquivalentApiFileContents] using heq
    simp only [collapseWs] at hcoll
    calc nonWsChars a
        = (collapseWsAux false a).filter (fun c => !isWsCharB c) :=
          (collapseWsAux_filter a false).symm
      _ = (collapseWsAux false b).filter (fun c => !isWsCharB c) := by rw [hcoll]
      _ = nonWsChars b := collapseWsAux_filter b false

/-- Witness for C3 at concrete inputs: a CRLF document is equivalent to its
LF form, a document with an extra blank line is equivalent to the original,
and two documents differing in one identifier are not equivalent. -/
theorem c3_equivalence_check_witness :
    areEquivalentApiFileContents ("a\r\nb".toList) (crlfToLf ("a\r\nb".toList)) = true ∧
    areEquivalentApiFileContents
      ("x;".toList ++ '\n' :: '\n' :: "y;".toList)
      ("x;".toList ++ '\n' :: "y;".toList) = true ∧
    areEquivalentApiFileContents ("foo".toList) ("bar".toList) = false :=
  ⟨c3_equivalence_check.2.1 ("a\r\nb".toList),
   c3_equivalence_check.2.2.1 ("x;".toList) ("y;".toList),
   c3_equivalence_check.2.2.2 ("foo".toList) ("bar".toList) (by decide)⟩

mutual

theorem span_write_default : ∀ (s : Span), Span.allDefaultMods s = true →
    Span.writeModifiedText s = Span.getText s
  | .mk n k pre suf sep cs m, h => by
    rw [Span.allDefaultMods, Bool.and_eq_true] at h
    obtain ⟨hm, hcs⟩ := h
    have hmd : m = {} := by
      simpa [SpanModification.isDefault] using hm
    subst hmd
    rw [Span.writeModifiedText, Span.getText]
    simp only [SpanModification.sortKey]
    simp [spanList_write_default cs hcs]

theorem spanList_write_default : ∀ (cs : SpanList),
    SpanList.allDefaultModsList cs = true →
    renderPairsText (SpanList.renderPairs cs) = SpanList.getTextList cs
  | .nil, _ => by
    rw [SpanList.renderPairs, SpanList.getTextList]
    simp [renderPairsText]
  | .cons s rest, h => by
    rw [SpanList.allDefaultModsList, Bool.and_eq_true] at h
    obtain ⟨hs, hrest⟩ := h
    rw [SpanList.renderPairs, SpanList.getTextList]
    have h1 := span_write_default s hs
    have h2 := spanList_write_default rest hrest
    simp [renderPairsText] at h2 ⊢
    rw [h1, h2]

end

/-- C1: the identity property of the span writer — serializing a span tree in
which every overlay field of every span is left at its default reproduces the
original source text of the node exactly. -/
theorem c1_identity_when_no_overlay_set (s : Span)
    (h : Span.allDefaultMods s = true) :
    Span.writeModifiedText s = Span.getText s :=
  span_write_default s h

/-- Witness for C1 at a concrete input: the default-overlay tree for
`class Foo` serializes to its original text. -/
theorem c1_identity_when_no_overlay_set_witness :
    Span.writeModifiedText witnessSpanC1 = Span.getText witnessSpanC1 :=
  c1_identity_when_no_overlay_set witnessSpanC1 (by rfl)

theorem SpanList.toList_ofList (l : List Span) : (SpanList.ofList l).toList = l := by
  induction l with
  | nil => rfl
  | cons s rest ih => simp [SpanList.ofList, SpanList.toList, ih]

theorem Span.withModification_self (s : Span) :
    s.withModification s.modification = s := by
  cases s; rfl

theorem preapprovedChildren_after (after : List Span)
    (h : ∀ c ∈ after, c.kind ≠ SyntaxKind.identifier) :
    preapprovedChildren true (SpanList.ofList after) =
      SpanList.ofList
        (after.map fun c => c.withModification c.modification.skipAll) := by
  induction after with
  | nil => rfl
  | cons c rest ih =>
    have hc : c.kind ≠ SyntaxKind.identifier := h c (List.mem_cons_self c rest)
    have hrest : ∀ x ∈ rest, x.kind ≠ SyntaxKind.identifier :=
      fun x hx => h x (List.mem_cons_of_mem c hx)
    simp [SpanList.ofList, preapprovedChildren, preapprovedChildStep, hc,
      ih hrest]

theorem preapprovedChildren_split (before : List Span) (idc : Span)
    (after : List Span)
    (hid : idc.kind = SyntaxKind.identifier)
    (hbefore : ∀ c ∈ before, c.kind ≠ SyntaxKind.identifier)
    (hafter : ∀ c ∈ after, c.kind ≠ SyntaxKind.identifier) :
    preapprovedChildren false (SpanList.ofList (before ++ idc :: after)) =
      SpanList.ofList
        ((before.map fun c =>
            if c.kind = SyntaxKind.syntaxList ∨ c.kind = SyntaxKind.jsDocComment
            then c.withModification c.modification.skipAll else c) ++
          (idc.withModification
            { idc.modification with
              omitSeparatorAfter := true
              suffixMod := some preapprovedMarker }) ::
            (after.map fun c => c.withModification c.modification.skipAll)) := by
  induction before with
  | nil =>
    have hid1 : (idc.kind == SyntaxKind.syntaxList) = false := by
      simp [hid]
    have hid2 : (idc.kind == SyntaxKind.jsDocComment) = false := by
      simp [hid]
    simp [SpanList.ofList, preapprovedChildren, preapprovedChildStep, hid,
      hid1, hid2, preapprovedChildren_after after hafter]
  | cons c rest ih =>
    have hc : c.kind ≠ SyntaxKind.identifier := hbefore c (List.mem_cons_self c rest)
    have hrest : ∀ x ∈ rest, x.kind ≠ SyntaxKind.identifier :=
      fun x hx => hbefore x (List.mem_cons_of_mem c hx)
    by_cases hsk : c.kind = SyntaxKind.syntaxList ∨ c.kind = SyntaxKind.jsDocComment
    · rcases hsk with h1 | h1 <;>
        simp [SpanList.ofList, preapprovedChildren, preapprovedChildStep, hc, h1,
          ih hrest]
    · push_neg at hsk
      simp [SpanList.ofList, preapprovedChildren, preapprovedChildStep, hc,
        hsk.1, hsk.2, ih hrest, Span.withModification_self]

/-- C8 (amended): for a pre-approved declaration the rewrite applies the
separate non-recursive policy `_modifySpanForPreapproved`, which attaches the
marker suffix `' { /* (preapproved) */ }'` after the declaration's
identifier while omitting the separator that follows it, suppresses every
syntax-list and JSDoc child, and suppresses every child following the
identifier; the span's own fields and overlay are untouched.  (The claim's
marker text `{ /* collapsed */ }` is corrected to the marker the code
actually writes.) -/
theorem c8_preapproved_policy (span : Span) (before after : List Span)
    (idc : Span)
    (hsplit : span.children = SpanList.ofList (before ++ idc :: after))
    (hid : idc.kind = SyntaxKind.identifier)
    (hbefore : ∀ c ∈ before, c.kind ≠ SyntaxKind.identifier)
    (hafter : ∀ c ∈ after, c.kind ≠ SyntaxKind.identifier) :
    (_modifySpanForPreapproved span).children =
      SpanList.ofList
        ((before.map fun c =>
            if c.kind = SyntaxKind.syntaxList ∨ c.kind = SyntaxKind.jsDocComment
            then c.withModification c.modification.skipAll else c) ++
          (idc.withModification
            { idc.modification with
              omitSeparatorAfter := true
              suffixMod := some preapprovedMarker }) ::
            (after.map fun c => c.withModification c.modification.skipAll)) ∧
    (_modifySpanForPreapproved span).kind = span.kind ∧
    (_modifySpanForPreapproved span).prefixText = span.prefixText ∧
    (_modifySpanForPreapproved span).suffixText = span.suffixText ∧
    (_modifySpanForPreapproved span).modification = span.modification := by
  cases span with
  | mk n k pre suf sep cs m =>
    simp only [Span.children] at hsplit
    subst hsplit
    refine ⟨?_, rfl, rfl, rfl, rfl⟩
    simp only [_modifySpanForPreapproved, Span.children]
    exact preapprovedChildren_split before idc after hid hbefore hafter

/-- Counterexample for C8 as stated: on a concrete pre-approved class span
the policy emits the marker `{ /* (preapproved) */ }` — not the
`{ /* collapsed */ }` marker asserted by the claim, which appears nowhere in
the output. -/
theorem c8_counterexample_marker_text :
    Span.writeModifiedText (_modifySpanForPreapproved spanC8) =
      "class _PreapprovedClass \x7b /* (preapproved) */ \x7d".toList ∧
    ¬ ("collapsed".toList <:+:
        Span.writeModifiedText (_modifySpanForPreapproved spanC8)) := by
  constructor
  · rfl
  · decide

/-- Witness for C8 (amended) at the concrete pre-approved class span. -/
theorem c8_preapproved_policy_witness :
    (_modifySpanForPreapproved spanC8).children =
      SpanList.ofList
        ((c8Before.map fun c =>
            if c.kind = SyntaxKind.syntaxList ∨ c.kind = SyntaxKind.jsDocComment
            then c.withModification c.modification.skipAll else c) ++
          (c8Idc.withModification
            { c8Idc.modification with
              omitSeparatorAfter := true
              suffixMod := some preapprovedMarker }) ::
            (c8After.map fun c => c.withModification c.modification.skipAll)) :=
  (c8_preapproved_policy spanC8 c8Before c8After c8Idc rfl rfl
    (by decide) (by decide)).1

/-- C5: for every identifier span processed by the rewrite pass (its context
declaration being included), if the identifier resolves to a tracked entity
the span's effective prefix — its emitted text — is replaced by that entity's
canonical emission name, so the emitted text depends only on the resolved
entity and all occurrences resolving to the same entity emit the identical
name; if it does not resolve, the span is returned entirely unchanged. -/
theorem c5_identifier_canonical_rename
    (collector : Collector) (entity : CollectorEntity)
    (astDeclaration : AstDeclaration) (insideTypeLiteral : Bool)
    (releaseLevel : Nat) (parentKind : Option SyntaxKind) (prev : Option Span)
    (s : Span)
    (hk : s.kind = SyntaxKind.identifier)
    (hleaf : s.children = SpanList.nil)
    (hincl : shouldIncludeInReportFor collector astDeclaration releaseLevel =
      .ok true) :
    (∀ (r : ResolvedEntityRef) (nm : List Char),
      collector.tryGetEntityForNode s.nodeId = some r →
      r.nameForEmit = some nm →
      _modifySpan collector entity astDeclaration insideTypeLiteral releaseLevel
          parentKind prev s s.modification =
        .ok (prev, s.withModification
          { s.modification with prefixMod := some nm }) ∧
      Span.writeModifiedText
          (s.withModification { s.modification with prefixMod := some nm }) =
        nm ++ s.modification.suffixMod.getD s.suffixText ++
          (if s.modification.omitSeparatorAfter then [] else s.separatorText)) ∧
    (collector.tryGetEntityForNode s.nodeId = none →
      _modifySpan collector entity astDeclaration insideTypeLiteral releaseLevel
          parentKind prev s s.modification = .ok (prev, s)) := by
  cases s with
  | mk nid k pre suf sep cs m =>
    simp only [Span.kind] at hk
    subst hk
    simp only [Span.children] at hleaf
    subst hleaf
    constructor
    · intro r nm hres hnm
      simp only [Span.nodeId] at hres
      constructor
      · simp [_modifySpan, _modifyChildren, hincl, hres, hnm,
          Span.nodeId, Span.withModification, Span.modification]
      · simp [Span.withModification, Span.modification, Span.writeModifiedText,
          Span.suffixText, Span.separatorText, SpanList.renderPairs,
          renderPairsText, anchorSortChildren, keyedOf, sortByKey, refillSorted,
          ite_self]
    · intro hres
      simp only [Span.nodeId] at hres
      simp [_modifySpan, _modifyChildren, hincl, hres, Span.nodeId,
        Span.modification]

/-- Witness for C5 at concrete inputs: the resolving identifier has its text
replaced by `Widget` and the non-resolving identifier is left unchanged. -/
theorem c5_identifier_canonical_rename_witness :
    (_modifySpan collectorC5 entityC5 declC5 false 0 none none spanC5
        spanC5.modification =
      .ok (none, spanC5.withModification
        { spanC5.modification with prefixMod := some ("Widget".toList) }) ∧
      Span.writeModifiedText
          (spanC5.withModification
            { spanC5.modification with prefixMod := some ("Widget".toList) }) =
        "Widget".toList ++ spanC5.modification.suffixMod.getD spanC5.suffixText ++
          (if spanC5.modification.omitSeparatorAfter then []
           else spanC5.separatorText)) ∧
    _modifySpan collectorC5 entityC5 declC5 false 0 none none spanC5b
        spanC5b.modification = .ok (none, spanC5b) :=
  ⟨(c5_identifier_canonical_rename collectorC5 entityC5 declC5 false 0 none none
      spanC5 rfl rfl rfl).1 ⟨some ("Widget".toList)⟩ ("Widget".toList) rfl rfl,
   (c5_identifier_canonical_rename collectorC5 entityC5 declC5 false 0 none none
      spanC5b rfl rfl rfl).2 rfl⟩

/-- C6: when an entity in the report is a namespace import whose aliased
module star-exports at least one external module, report generation aborts
with a fatal error (no partial namespace block is produced) whose message
names the namespace's emission name and ends with the formatted location of
the offending module's declaration.  The entity is taken at the head of the
entity list; an error raised there aborts the whole report. -/
theorem c6_namespace_star_export_fatal
    (collector : Collector) (options : IApiReportOptions)
    (e : CollectorEntity) (rest : List CollectorEntity)
    (info : AstModuleExportInfo) (loc n : List Char)
    (hents : collector.entities = e :: rest)
    (hcons : e.consumable = true)
    (hast : e.astEntity = AstEntity.astNamespaceImport info loc)
    (hname : e.nameForEmit = some n)
    (hstar : 0 < info.starExportedExternalModulesCount) :
    generateReviewFileContent collector options =
      .error ("The ".toList ++ n ++
        " namespace import includes a star export, which is not supported:\n".toList
        ++ loc) ∧
    n <:+: ("The ".toList ++ n ++
      " namespace import includes a star export, which is not supported:\n".toList
      ++ loc) ∧
    loc <:+ ("The ".toList ++ n ++
      " namespace import includes a star export, which is not supported:\n".toList
      ++ loc) := by
  refine ⟨?_, ?_, ?_⟩
  · simp only [generateReviewFileContent, assembleReport, hents,
      processEntityList, processEntity, hcons, hast, hname,
      processNamespaceImport, Bool.true_or, if_pos hstar]
    rfl
  · exact ⟨"The ".toList,
      " namespace import includes a star export, which is not supported:\n".toList
        ++ loc, by simp⟩
  · exact ⟨"The ".toList ++ n ++
      " namespace import includes a star export, which is not supported:\n".toList,
      by simp⟩

/-- Witness for C6 at a concrete input: the report for the star-exporting
namespace import aborts with the naming error. -/
theorem c6_namespace_star_export_fatal_witness :
    generateReviewFileContent collectorC6 reportOptionsUntrimmed =
      .error ("The ".toList ++ "helpers".toList ++
        " namespace import includes a star export, which is not supported:\n".toList
        ++ "lib/mod.ts:3".toList) :=
  (c6_namespace_star_export_fatal collectorC6 reportOptionsUntrimmed entityC6 []
    { starExportedExternalModulesCount := 1 } ("lib/mod.ts:3".toList)
    ("helpers".toList) rfl rfl rfl rfl (by decide)).1

theorem noTrailSpaceB_cons (c : Char) (xs : List Char) (hc : c ≠ ' ')
    (h : noTrailSpaceB xs = true) : noTrailSpaceB (c :: xs) = true := by
  cases xs with
  | nil => simp [noTrailSpaceB, hc]
  | cons d rest => simp [noTrailSpaceB, hc, h]

theorem noTrailSpaceB_replicate : ∀ (p : Nat) (c : Char) (xs : List Char),
    c ≠ ' ' → c ≠ '\n' → noTrailSpaceB (c :: xs) = true →
    noTrailSpaceB (List.replicate p ' ' ++ c :: xs) = true
  | 0, c, xs, _, _, h => by simpa using h
  | 1, c, xs, hc, hn, h => by
    have hcn : (c == '\n') = false := by simp [hn]
    simp only [List.replicate_succ, List.replicate_zero, List.nil_append,
      List.cons_append]
    simp [noTrailSpaceB, hcn, h]
  | (q + 2), c, xs, hc, hn, h => by
    have ih := noTrailSpaceB_replicate (q + 1) c xs hc hn h
    simp only [List.replicate_succ, List.cons_append] at ih ⊢
    simp only [noTrailSpaceB] at ih ⊢
    simpa using ih

theorem trimAux_noTrailSpace : ∀ (s : List Char) (p : Nat),
    noTrailSpaceB (trimAux p s) = true
  | [], _ => rfl
  | c :: r, p => by
    by_cases hsp : c = ' '
    · rw [trimAux, if_pos hsp]
      exact trimAux_noTrailSpace r (p + 1)
    · by_cases hnl : c = '\n'
      · rw [trimAux, if_neg hsp, if_pos hnl]
        subst hnl
        exact noTrailSpaceB_cons '\n' _ (by decide) (trimAux_noTrailSpace r 0)
      · rw [trimAux, if_neg hsp, if_neg hnl]
        exact noTrailSpaceB_replicate p c _ hsp hnl
          (noTrailSpaceB_cons c _ hsp (trimAux_noTrailSpace r 0))

/-- C9 (amended): the trailing-space pass is the final step of report
generation, and in the returned report no line ends with a *space*
character.  (The claim's "whitespace character" is corrected to the space
character `' '`, the only character the `/ +$/gm` pass removes — a trailing
tab survives, see the counterexample.) -/
theorem c9_trailing_space_trim (collector : Collector)
    (options : IApiReportOptions) :
    generateReviewFileContent collector options =
      Except.map trimTrailingSpaces (assembleReport collector options) ∧
    ∀ out, generateReviewFileContent collector options = .ok out →
      noTrailSpaceB out = true := by
  refine ⟨rfl, ?_⟩
  intro out hout
  cases hass : assembleReport collector options with
  | error e =>
    rw [generateReviewFileContent, hass] at hout
    simp [Except.map] at hout
  | ok t =>
    rw [generateReviewFileContent, hass] at hout
    simp only [Except.map, Except.ok.injEq] at hout
    subst hout
    exact trimAux_noTrailSpace t 0

/-- Witness for C9 (amended) at a concrete input: the report of a plain
collector is the trailing-space-trimmed assembly and has no line ending with
a space. -/
theorem c9_trailing_space_trim_witness :
    generateReviewFileContent collectorC9 reportOptionsUntrimmed =
      Except.map trimTrailingSpaces
        (assembleReport collectorC9 reportOptionsUntrimmed) ∧
    noTrailSpaceB (reportOrEmpty collectorC9 reportOptionsUntrimmed) = true := by
  have h := c9_trailing_space_trim collectorC9 reportOptionsUntrimmed
  refine ⟨h.1, ?_⟩
  rw [reportOrEmpty]
  cases hg : generateReviewFileContent collectorC9 reportOptionsUntrimmed with
  | ok out => exact h.2 out hg
  | error e => rfl

set_option maxRecDepth 4000 in
/-- Counterexample for C9 as stated: the report generated for
`collectorC9bad` contains a line that ends with a whitespace character (a
tab): the `/ +$/gm` pass removes only spaces, so "trailing whitespace removed
from every line" fails. -/
theorem c9_counterexample_trailing_tab_survives :
    (match generateReviewFileContent collectorC9bad reportOptionsUntrimmed with
     | .ok out => (splitOnNl out).any lastCharIsWs
     | .error _ => false) = true := by
  decide

theorem writeChar_fields (w : IndentedWriter) (c : Char) :
    (w.writeChar c).indentLevel = w.indentLevel ∧
    (w.writeChar c).trimLeadingSpaces = w.trimLeadingSpaces := by
  unfold IndentedWriter.writeChar
  split
  · exact ⟨rfl, rfl⟩
  · split
    · exact ⟨rfl, rfl⟩
    · split
      · exact ⟨rfl, rfl⟩
      · exact ⟨rfl, rfl⟩

theorem write_fields : ∀ (s : List Char) (w : IndentedWriter),
    (w.write s).indentLevel = w.indentLevel ∧
    (w.write s).trimLeadingSpaces = w.trimLeadingSpaces
  | [], _ => ⟨rfl, rfl⟩
  | c :: s, w =>
    ⟨(write_fields s (w.writeChar c)).1.trans (writeChar_fields w c).1,
     (write_fields s (w.writeChar c)).2.trans (writeChar_fields w c).2⟩

theorem writeChar_extends (w : IndentedWriter) (c : Char) :
    ∃ t, (w.writeChar c).buffer = w.buffer ++ t := by
  unfold IndentedWriter.writeChar
  split
  · exact ⟨['\n'], rfl⟩
  · split
    · exact ⟨[], by simp⟩
    · split
      · exact ⟨w.indentChars ++ [c], by simp⟩
      · exact ⟨[c], rfl⟩

theorem write_extends : ∀ (s : List Char) (w : IndentedWriter),
    ∃ t, (w.write s).buffer = w.buffer ++ t
  | [], w => ⟨[], by simp [IndentedWriter.write]⟩
  | c :: s, w => by
    obtain ⟨t1, h1⟩ := writeChar_extends w c
    obtain ⟨t2, h2⟩ := write_extends s (w.writeChar c)
    exact ⟨t1 ++ t2, by
      rw [show w.write (c :: s) = (w.writeChar c).write s from rfl, h2, h1,
        List.append_assoc]⟩

theorem foldl_buffer_extends {α : Type} (f : IndentedWriter → α → IndentedWriter)
    (hf : ∀ w a, ∃ t, (f w a).buffer = w.buffer ++ t) :
    ∀ (l : List α) (w : IndentedWriter), ∃ t, (l.foldl f w).buffer = w.buffer ++ t
  | [], w => ⟨[], by simp⟩
  | a :: l, w => by
    obtain ⟨t1, h1⟩ := hf w a
    obtain ⟨t2, h2⟩ := foldl_buffer_extends f hf l (f w a)
    exact ⟨t1 ++ t2, by rw [List.foldl_cons, h2, h1, List.append_assoc]⟩

theorem wlac_extends (w : IndentedWriter) (line : List Char) :
    ∃ t, (_writeLineAsComments w line).buffer = w.buffer ++ t := by
  unfold _writeLineAsComments
  apply foldl_buffer_extends
  intro w2 l
  obtain ⟨t1, h1⟩ := write_extends ("// ".toList) w2
  obtain ⟨t2, h2⟩ := write_extends l (w2.write ("// ".toList))
  obtain ⟨t3, h3⟩ := write_extends ['\n'] ((w2.write ("// ".toList)).write l)
  exact ⟨t1 ++ (t2 ++ t3), by
    rw [show ∀ w : IndentedWriter, w.writeLine [] = w.write ['\n'] from fun _ => rfl,
      h3, h2, h1, List.append_assoc, List.append_assoc]⟩

theorem foldl_fields_preserved {α : Type} (f : IndentedWriter → α → IndentedWriter)
    (hf : ∀ w a, (f w a).indentLevel = w.indentLevel ∧
      (f w a).trimLeadingSpaces = w.trimLeadingSpaces) :
    ∀ (l : List α) (w : IndentedWriter),
      (l.foldl f w).indentLevel = w.indentLevel ∧
      (l.foldl f w).trimLeadingSpaces = w.trimLeadingSpaces
  | [], _ => ⟨rfl, rfl⟩
  | a :: l, w =>
    ⟨(foldl_fields_preserved f hf l (f w a)).1.trans (hf w a).1,
     (foldl_fields_preserved f hf l (f w a)).2.trans (hf w a).2⟩

theorem wlac_fields (w : IndentedWriter) (line : List Char) :
    (_writeLineAsComments w line).indentLevel = w.indentLevel ∧
    (_writeLineAsComments w line).trimLeadingSpaces = w.trimLeadingSpaces := by
  unfold _writeLineAsComments
  apply foldl_fields_preserved
  intro w2 l
  exact ⟨((write_fields ['\n'] _).1.trans ((write_fields l _).1.trans
      (write_fields ("// ".toList) w2).1)),
    ((write_fields ['\n'] _).2.trans ((write_fields l _).2.trans
      (write_fields ("// ".toList) w2).2))⟩

theorem writeChar_append0 (w : IndentedWriter) (c : Char)
    (hi : w.indentLevel = 0) (ht : w.trimLeadingSpaces = false) :
    (w.writeChar c).buffer = w.buffer ++ [c] := by
  unfold IndentedWriter.writeChar
  split <;> simp_all [IndentedWriter.indentChars]

theorem write_append0 : ∀ (s : List Char) (w : IndentedWriter),
    w.indentLevel = 0 → w.trimLeadingSpaces = false →
    (w.write s).buffer = w.buffer ++ s
  | [], w, _, _ => by simp [IndentedWriter.write]
  | c :: s, w, hi, ht => by
    have hc := writeChar_append0 w c hi ht
    have hf := writeChar_fields w c
    have ih := write_append0 s (w.writeChar c) (hf.1.trans hi) (hf.2.trans ht)
    rw [show w.write (c :: s) = (w.writeChar c).write s from rfl, ih, hc]
    simp

theorem convertToLf_id : ∀ (t : List Char), '\r' ∉ t → convertToLf t = t
  | [], _ => rfl
  | [c], h => by
    have hc : c ≠ '\r' := fun e => h (by simp [e])
    simp [convertToLf, hc]
  | c :: d :: rest, h => by
    have hc : c ≠ '\r' := fun e => h (by simp [e])
    have ht : '\r' ∉ d :: rest := fun e => h (List.mem_cons_of_mem c e)
    have h1 : (c == '\r' && d == '\n') = false := by simp [hc]
    simp [convertToLf, h1, hc, convertToLf_id (d :: rest) ht]

theorem splitOnNl_single : ∀ (t : List Char), '\n' ∉ t → splitOnNl t = [t]
  | [], _ => rfl
  | c :: rest, h => by
    have hc : c ≠ '\n' := fun e => h (by simp [e])
    have ih := splitOnNl_single rest (fun e => h (List.mem_cons_of_mem c e))
    simp [splitOnNl, hc, ih]

theorem wlac_append0 (w : IndentedWriter) (line : List Char)
    (hi : w.indentLevel = 0) (ht : w.trimLeadingSpaces = false)
    (hn : '\n' ∉ line) (hr : '\r' ∉ line) :
    (_writeLineAsComments w line).buffer =
      w.buffer ++ ("// ".toList ++ line ++ ['\n']) := by
  unfold _writeLineAsComments
  rw [convertToLf_id line hr, splitOnNl_single line hn]
  simp only [List.foldl_cons, List.foldl_nil]
  have hf1 := write_fields ("// ".toList) w
  have hf2 := write_fields line (w.write ("// ".toList))
  rw [show ∀ w2 : IndentedWriter, w2.writeLine [] = w2.write ['\n'] from
      fun _ => rfl,
    write_append0 ['\n'] _ (hf2.1.trans (hf1.1.trans hi))
      (hf2.2.trans (hf1.2.trans ht)),
    write_append0 line _ (hf1.1.trans hi) (hf1.2.trans ht),
    write_append0 ("// ".toList) w hi ht]
  simp

theorem warning_block_infix : ∀ (msgs : List ExtractorMessage)
    (w : IndentedWriter), w.indentLevel = 0 → w.trimLeadingSpaces = false →
    ∀ m ∈ msgs, '\n' ∉ m.messageText → '\r' ∉ m.messageText →
    ("// Warning: ".toList ++ m.messageText ++ ['\n']) <:+:
      (msgs.foldl
        (fun w2 m2 => _writeLineAsComments w2 ("Warning: ".toList ++ m2.messageText))
        w).buffer
  | [], _, _, _, m, hm, _, _ => absurd hm (List.not_mem_nil m)
  | m0 :: rest, w, hi, ht, m, hm, hn, hr => by
    rw [List.foldl_cons]
    have hfields := wlac_fields w ("Warning: ".toList ++ m0.messageText)
    rcases List.mem_cons.1 hm with he | hmem
    · subst he
      have hnl : '\n' ∉ "Warning: ".toList ++ m.messageText := by
        intro hmem2
        rcases List.mem_append.1 hmem2 with h1 | h1
        · revert h1; decide
        · exact hn h1
      have hrl : '\r' ∉ "Warning: ".toList ++ m.messageText := by
        intro hmem2
        rcases List.mem_append.1 hmem2 with h1 | h1
        · revert h1; decide
        · exact hr h1
      have hb := wlac_append0 w ("Warning: ".toList ++ m.messageText) hi ht hnl hrl
      obtain ⟨t, hext⟩ := foldl_buffer_extends
        (fun w2 m2 => _writeLineAsComments w2 ("Warning: ".toList ++ m2.messageText))
        (fun w2 m2 => wlac_extends w2 _) rest
        (_writeLineAsComments w ("Warning: ".toList ++ m.messageText))
      rw [hext, hb]
      refine ⟨w.buffer, t, ?_⟩
      have hsplit : "// Warning: ".toList ++ m.messageText ++ ['\n'] =
          "// ".toList ++ ("Warning: ".toList ++ m.messageText) ++ ['\n'] := by
        simp [show "// Warning: ".toList =
          "// ".toList ++ "Warning: ".toList from rfl]
      rw [hsplit]
    · exact warning_block_infix rest _ (hfields.1.trans hi) (hfields.2.trans ht)
        m hmem hn hr

theorem aedocFooterApply_extends (collector : Collector)
    (astDeclaration : AstDeclaration) (msgs : List ExtractorMessage)
    (w : IndentedWriter) :
    ∃ t, (aedocFooterApply collector astDeclaration msgs w).buffer =
      w.buffer ++ t := by
  unfold aedocFooterApply
  split
  · exact ⟨[], by simp⟩
  · split
    · obtain ⟨t1, h1⟩ : ∃ t1,
          (if msgs.length > 0 then _writeLineAsComments w [] else w).buffer =
            w.buffer ++ t1 := by
        split
        · exact wlac_extends w []
        · exact ⟨[], by simp⟩
      obtain ⟨t2, h2⟩ := wlac_extends
        (if msgs.length > 0 then _writeLineAsComments w [] else w)
        (List.intercalate (" ".toList) (aedocFooterParts collector astDeclaration))
      exact ⟨t1 ++ t2, by rw [h2, h1, List.append_assoc]⟩
    · exact ⟨[], by simp⟩

theorem foldl_const_acc {α β : Type} : ∀ (l : List α) (acc : β),
    l.foldl (fun a _ => a) acc = acc
  | [], _ => rfl
  | _ :: l, acc => foldl_const_acc l acc

theorem splitMessages_empty_exports : ∀ (fetched pre : List ExtractorMessage),
    fetched.foldl splitMessagesStep ([], pre) = ([], pre ++ fetched)
  | [], pre => by simp
  | m :: rest, pre => by
    have hstep : splitMessagesStep ([], pre) m = ([], pre ++ [m]) := by
      unfold splitMessagesStep
      cases m.exportName <;> simp
    rw [List.foldl_cons, hstep, splitMessages_empty_exports rest (pre ++ [m])]
    simp

/-- C10: for an entity whose export is inlined, the export-name collection
loop collects nothing (the `exportsToEmit` map stays empty), so the message
split leaves every fetched message with the declaration and the export-clause
loop writes nothing; and every single-line message routed to the declaration
appears in the declaration's synopsis as a `// Warning:` comment line. -/
theorem c10_inline_export_suppresses_clauses (entity : CollectorEntity)
    (hinline : entity.shouldInlineExport = true) :
    computeExportsToEmit entity = [] ∧
    (∀ fetched, splitMessagesForExports (computeExportsToEmit entity) fetched =
      ([], fetched)) ∧
    (∀ w : IndentedWriter,
      emitExportClauses entity w (computeExportsToEmit entity) = w) ∧
    (∀ (collector : Collector) (d : AstDeclaration)
        (msgs : List ExtractorMessage) (m : ExtractorMessage),
      m ∈ msgs → '\n' ∉ m.messageText → '\r' ∉ m.messageText →
      ("// Warning: ".toList ++ m.messageText ++ ['\n']) <:+:
        _getAedocSynopsis collector d msgs) := by
  have hempty : computeExportsToEmit entity = [] := by
    unfold computeExportsToEmit
    rw [show (fun (acc : List ExportToEmit) (nm : List Char) =>
        if entity.shouldInlineExport then acc else exportsToEmitSet acc nm) =
      (fun acc _ => acc) from by funext acc nm; simp [hinline]]
    exact foldl_const_acc entity.exportNames []
  refine ⟨hempty, ?_, ?_, ?_⟩
  · intro fetched
    rw [hempty]
    unfold splitMessagesForExports
    simpa using splitMessages_empty_exports fetched []
  · intro w
    rw [hempty]
    rfl
  · intro collector d msgs m hm hn hr
    have hblock := warning_block_infix msgs {} rfl rfl m hm hn hr
    obtain ⟨t, hext⟩ := aedocFooterApply_extends collector d msgs
      (aedocWarningBlockWriter msgs)
    unfold _getAedocSynopsis
    rw [hext]
    exact List.IsInfix.trans (by exact hblock)
      (List.prefix_append _ t).isInfix

/-- Witness for C10 at a concrete input: the inlined entity collects no
export entry, its export-named message stays with the declaration, the
export-clause loop is a no-op, and the message shows up as a warning comment
in the synopsis. -/
theorem c10_inline_export_suppresses_clauses_witness :
    computeExportsToEmit entityC10 = [] ∧
    splitMessagesForExports (computeExportsToEmit entityC10) [msgC10] =
      ([], [msgC10]) ∧
    emitExportClauses entityC10 {} (computeExportsToEmit entityC10) = {} ∧
    ("// Warning: ".toList ++ msgC10.messageText ++ ['\n']) <:+:
      _getAedocSynopsis {} declC5 [msgC10] :=
  have h := c10_inline_export_suppresses_clauses entityC10 rfl
  ⟨h.1, h.2.1 [msgC10], h.2.2.1 {},
   h.2.2.2 {} declC5 [msgC10] msgC10 (by simp) (by decide) (by decide)⟩
